import Mathlib

/- Verification of the PoPKAT post-simulation analysis core
   (client/src/main/python/analyze: pkcalcs.py, popkatdata.py,
   montecarlo.py, forward.py, sensitivity.py, and utils/gen_utils.py).

   Embedding conventions:
   * numeric values are rationals; the few places where Python/numpy float
     semantics differ (division by zero yielding inf/nan) are modelled with
     Option/total rational division and are called out in the comments;
   * np.log is an abstract parameter lg : Q -> Q (no claim depends on the
     numeric values of logarithms, only on which points are fed to the fit
     and on the algebraic shape of the results);
   * np.polyfit on a rank-deficient design matrix (all abscissae equal)
     warns and still returns a finite least-squares solution computed from
     a scaled pseudo-inverse; that value is modelled by an abstract
     parameter degSlope (no claim depends on it);
   * fallible numpy/pandas/Python primitives are modelled with Except. -/

/-- Errors raised by the Python/numpy/pandas primitives the analyze code
calls: np.polyfit's TypeError on an empty vector, numpy's IndexError on
out-of-range or mismatched indexing, a Python dict's KeyError on a missing
key, and pandas' ValueError for a quantile outside the unit interval. -/
inductive PyErr where
  | emptyVector
  | indexError
  | keyError
  | valueError
  deriving DecidableEq

/-- Python slice xs[-n:]: the last n elements for 0 < n (all of them when
fewer than n are present), and the whole list for n = 0 (xs[-0:] is xs[0:]). -/
def lastSlice (n : Nat) {a : Type} (xs : List a) : List a :=
  if n = 0 then xs else xs.drop (xs.length - n)

/-- Denominator of the closed-form degree-1 least-squares slope over a list
of (x, y) points: n * sum x^2 - (sum x)^2. It vanishes exactly when the
design matrix is rank-deficient (no two distinct abscissae). -/
def polyfitDenom (ps : List (Rat × Rat)) : Rat :=
  (ps.length : Rat) * (ps.map (fun p => p.1 * p.1)).sum - (ps.map Prod.fst).sum ^ 2

/-- Slope of the degree-1 least-squares line through a full-rank list of
points, per the normal equations np.polyfit's lstsq solves. -/
def fitSlope (ps : List (Rat × Rat)) : Rat :=
  ((ps.length : Rat) * (ps.map (fun p => p.1 * p.2)).sum
      - (ps.map Prod.fst).sum * (ps.map Prod.snd).sum) / polyfitDenom ps

/-- Intercept of the degree-1 least-squares line through a list of points. -/
def fitInter (ps : List (Rat × Rat)) : Rat :=
  ((ps.map Prod.snd).sum - fitSlope ps * (ps.map Prod.fst).sum) / (ps.length : Rat)

/-- np.polyfit(x, y, 1) restricted to its slope: raises TypeError on an
empty vector; returns the closed-form least-squares slope for a full-rank
design; for a rank-deficient design numpy warns (RankWarning) and returns
the scaled-lstsq value, modelled by the abstract degSlope. -/
def polyfitSlope (degSlope : List (Rat × Rat) → Rat) (ps : List (Rat × Rat)) :
    Except PyErr Rat :=
  if ps = [] then .error .emptyVector
  else if polyfitDenom ps = 0 then .ok (degSlope ps)
  else .ok (fitSlope ps)

/-- pkcalcs.calc_elim_rate_const(t, C, ninterp): keep the points with
C > 0, fit a degree-1 least-squares line to ln C versus t over the last
ninterp retained points, and return the negated slope. numpy's boolean
mask t[C > 0] raises IndexError when t and C differ in length. -/
def calc_elim_rate_const (lg : Rat → Rat) (degSlope : List (Rat × Rat) → Rat)
    (t C : List Rat) (ninterp : Nat) : Except PyErr Rat :=
  if t.length ≠ C.length then .error .indexError
  else
    let pts := (t.zip C).filter (fun p => 0 < p.2)
    let fitpts := lastSlice ninterp (pts.map (fun p => (p.1, lg p.2)))
    match polyfitSlope degSlope fitpts with
    | .error e => .error e
    | .ok slope => .ok (-slope)

/-- np.trapz over a list of (t, C) pairs: sum of (C i + C i+1)/2 * (t i+1 - t i). -/
def trapzAux : List (Rat × Rat) → Rat
  | (t1, c1) :: (t2, c2) :: rest => (c1 + c2) / 2 * (t2 - t1) + trapzAux ((t2, c2) :: rest)
  | _ => 0

/-- np.trapz(C, t): trapezoidal integral of C against t. -/
def np_trapz (C t : List Rat) : Rat := trapzAux (t.zip C)

/-- pkcalcs.calc_AUC(t, C, inf, ninterp): the elimination rate constant is
computed unconditionally; the tail contribution C[-1] / kelim is added when
inf is set (numpy float division by a zero rate yields inf; over the
rationals the same expression is total). -/
def calc_AUC (lg : Rat → Rat) (degSlope : List (Rat × Rat) → Rat)
    (t C : List Rat) (inf : Bool) (ninterp : Nat) : Except PyErr Rat :=
  match calc_elim_rate_const lg degSlope t C ninterp with
  | .error e => .error e
  | .ok ke =>
      if inf then
        match C.getLast? with
        | none => .error .indexError
        | some cl => .ok (np_trapz C t + cl / ke)
      else .ok (np_trapz C t)

/-- pkcalcs.calc_mean_residence_time: AUMC / AUC where AUMC is the
trapezoidal integral of C * t; the elementwise product raises on a length
mismatch before calc_AUC runs. -/
def calc_mean_residence_time (lg : Rat → Rat) (degSlope : List (Rat × Rat) → Rat)
    (t C : List Rat) (ninterp : Nat) : Except PyErr Rat :=
  if t.length ≠ C.length then .error .indexError
  else
    match calc_AUC lg degSlope t C false ninterp with
    | .error e => .error e
    | .ok auc => .ok (np_trapz (C.zipWith (· * ·) t) t / auc)

/-- np.argmax: index of the first occurrence of the maximum; ValueError on
an empty array. The accumulator keeps the best index and value so far. -/
def argmaxAux : List Rat → Nat → Rat → Nat → Nat
  | [], bi, _, _ => bi
  | x :: xs, bi, bv, i => if bv < x then argmaxAux xs i x (i + 1) else argmaxAux xs bi bv (i + 1)

/-- np.argmax over a list. -/
def np_argmax (l : List Rat) : Except PyErr Nat :=
  match l with
  | [] => .error .emptyVector
  | x :: xs => .ok (argmaxAux xs 0 x 1)

/-- pkcalcs.calc_tmax: t[np.argmax(C)]. -/
def calc_tmax (t C : List Rat) : Except PyErr Rat :=
  match np_argmax C with
  | .error e => .error e
  | .ok i =>
      match t[i]? with
      | none => .error .indexError
      | some v => .ok v

/-- pkcalcs.calc_cmax: C[np.argmax(C)]. -/
def calc_cmax (t C : List Rat) : Except PyErr Rat :=
  match np_argmax C with
  | .error e => .error e
  | .ok i =>
      match C[i]? with
      | none => .error .indexError
      | some v => .ok v

/-- pkcalcs.calc_elim_half_life: np.log(2) / kelim. -/
def calc_elim_half_life (lg : Rat → Rat) (degSlope : List (Rat × Rat) → Rat)
    (t C : List Rat) (ninterp : Nat) : Except PyErr Rat :=
  match calc_elim_rate_const lg degSlope t C ninterp with
  | .error e => .error e
  | .ok ke => .ok (lg 2 / ke)

/-- pkcalcs.calc_clearance: dose / AUC_inf. -/
def calc_clearance (lg : Rat → Rat) (degSlope : List (Rat × Rat) → Rat)
    (t C : List Rat) (dose : Rat) (ninterp : Nat) : Except PyErr Rat :=
  match calc_AUC lg degSlope t C true ninterp with
  | .error e => .error e
  | .ok aucInf => .ok (dose / aucInf)

/-- pkcalcs.calc_volume_of_distribution: clearance / kelim. -/
def calc_volume_of_distribution (lg : Rat → Rat) (degSlope : List (Rat × Rat) → Rat)
    (t C : List Rat) (dose : Rat) (ninterp : Nat) : Except PyErr Rat :=
  match calc_elim_rate_const lg degSlope t C ninterp with
  | .error e => .error e
  | .ok ke =>
      match calc_clearance lg degSlope t C dose ninterp with
      | .error e => .error e
      | .ok cl => .ok (cl / ke)

/-- Python truthiness of the optional dose argument: None and 0 are falsy,
any other number is truthy. -/
def doseTruthy (dose : Option Rat) : Bool :=
  match dose with
  | none => false
  | some d => d ≠ 0

/-- pkcalcs.calc_all_pk: builds the PK parameter dict in insertion order;
clearance and volume_of_distribution are added only under Python's
truthiness test on dose (so a supplied dose of 0 is skipped too). -/
def calc_all_pk (lg : Rat → Rat) (degSlope : List (Rat × Rat) → Rat)
    (t C : List Rat) (dose : Option Rat) (ninterp : Nat) :
    Except PyErr (List (String × Rat)) := do
  let auc ← calc_AUC lg degSlope t C false ninterp
  let aucInf ← calc_AUC lg degSlope t C true ninterp
  let mrt ← calc_mean_residence_time lg degSlope t C ninterp
  let tmax ← calc_tmax t C
  let cmax ← calc_cmax t C
  let ke ← calc_elim_rate_const lg degSlope t C ninterp
  let th ← calc_elim_half_life lg degSlope t C ninterp
  let base := [("AUC", auc), ("AUC_inf", aucInf), ("MRT", mrt), ("tmax", tmax),
    ("Cmax", cmax), ("kelim", ke), ("t_half", th)]
  match dose with
  | some d =>
      if d ≠ 0 then do
        let cl ← calc_clearance lg degSlope t C d ninterp
        let vd ← calc_volume_of_distribution lg degSlope t C d ninterp
        pure (base ++ [("clearance", cl), ("volume_of_distribution", vd)])
      else pure base
  | none => pure base

deriving instance DecidableEq for Except

/-- A fixed instantiation of the abstract logarithm used to state closed
counterexamples; the behaviors they exhibit hold for every lg. -/
def zeroLog : Rat → Rat := fun _ => 0

/-- A fixed instantiation of the abstract rank-deficient polyfit value used
to state closed counterexamples. -/
def zeroDeg : List (Rat × Rat) → Rat := fun _ => 0

/-- Python strings are modelled as lists of characters (code points); the
lexicographic order on List Char is Python's string comparison. -/
abbrev Str := List Char

/-- np.interp(x, xp, fp) over a list of (xp, fp) pairs with xp increasing:
clamped to fp[0] below the range, linear inside, and clamped to the last
fp at and beyond the last node. numpy raises on an empty xp; the
callers in this embedding only pass nonempty lists (see MC_calc_df_diff). -/
def np_interp (x : Rat) : List (Rat × Rat) → Rat
  | [] => 0
  | [p] => p.2
  | p :: q :: rest =>
      if x ≤ p.1 then p.2
      else if x ≤ q.1 then p.2 + (q.2 - p.2) * (x - p.1) / (q.1 - p.1)
      else np_interp x (q :: rest)

/-- Relative difference (observed - interpolated) / observed. Division of a
pandas float series by a zero observation yields a non-finite placeholder
(inf or nan) instead of raising; modelled as the undefined value none. -/
def relDiff (vd vi : Rat) : Option Rat :=
  if vd = 0 then none else some ((vd - vi) / vd)

/-- One row of a tidy simulated/observed frame: identifier, time, value. -/
structure SimRow where
  ident : Str
  time : Rat
  dep_var : Rat
  deriving DecidableEq

/-- One record produced by MCAnalyzer._calc_df_diff. -/
structure DiffRec where
  time : Rat
  dep_var_diff : Option Rat
  ident : Str
  measure : Str
  deriving DecidableEq

/-- pandas Series.unique: the distinct values in order of first occurrence;
the accumulator holds the values already seen. -/
def uniqueAux {a : Type} [DecidableEq a] : List a → List a → List a
  | [], _ => []
  | x :: xs, seen => if x ∈ seen then uniqueAux xs seen else x :: uniqueAux xs (x :: seen)

/-- pandas Series.unique over a list. -/
def uniqueFirst {a : Type} [DecidableEq a] (l : List a) : List a := uniqueAux l []

/-- montecarlo.MCAnalyzer._calc_df_diff(sim_df, data_df, ov): for each
identifier of the simulated frame, interpolate that identifier's simulated
series onto its observed time points and record the relative differences.
np.interp raises on an empty sample array, but each identifier comes from
the simulated frame itself, so its simulated subframe is never empty. -/
def MC_calc_df_diff (sim_df data_df : List SimRow) (ov : Str) : List DiffRec :=
  (uniqueFirst (sim_df.map (fun r => r.ident))).flatMap (fun idt =>
    let sdf := sim_df.filter (fun r => r.ident = idt)
    let ddf := data_df.filter (fun r => r.ident = idt)
    let spts := sdf.map (fun r => (r.time, r.dep_var))
    ddf.map (fun r => ⟨r.time, relDiff r.dep_var (np_interp r.time spts), idt, ov⟩))

/-- pandas' linear-interpolation quantile of a sorted list of values:
position h = q * (n - 1); the value is v[floor h] plus the fractional part
times the gap to the next order statistic. -/
def qLinear (svals : List Rat) (q : Rat) : Rat :=
  let n := svals.length
  let h := q * ((n : Rat) - 1)
  let k := (⌊h⌋).toNat
  let v0 := svals.getD k 0
  v0 + (h - (⌊h⌋ : Rat)) * (svals.getD (k + 1) 0 - v0)

/-- Quantile of column j of a row-major matrix: sort the column, then
interpolate linearly, as DataFrame.quantile(axis=0) does. -/
def colQuantile (rows : List (List Rat)) (j : Nat) (q : Rat) : Rat :=
  qLinear ((rows.map (fun r => r.getD j 0)).insertionSort (· ≤ ·)) q

/-- One output row of DataFrame.quantile: the q-quantile of every column. -/
def quantileRow (rows : List (List Rat)) (q : Rat) : List Rat :=
  (List.range (rows.headD []).length).map (fun j => colQuantile rows j q)

/-- montecarlo.MCAnalyzer._calc_confint(df, quants): per-column quantiles at
the three requested levels (lower, dep_var, upper). pandas validates that
every requested quantile lies in the unit interval and raises ValueError
otherwise. -/
def MC_calc_confint (rows : List (List Rat)) (quants : Rat × Rat × Rat) :
    Except PyErr (List Rat × List Rat × List Rat) :=
  if 0 ≤ quants.1 ∧ quants.1 ≤ 1 ∧ 0 ≤ quants.2.1 ∧ quants.2.1 ≤ 1
      ∧ 0 ≤ quants.2.2 ∧ quants.2.2 ≤ 1 then
    .ok (quantileRow rows quants.1, quantileRow rows quants.2.1, quantileRow rows quants.2.2)
  else .error .valueError

/-- The population sentinel POPULATION_KEYWORD = "pop" (config/consts.py). -/
def popKW : Str := ['p', 'o', 'p']

/-- Python str.zfill(w): pad on the left with zeros up to width w. -/
def zfill (w : Nat) (s : Str) : Str := List.replicate (w - s.length) '0' ++ s

/-- Python str.split(sep) for a one-character separator: the (possibly
empty) fields between occurrences of the separator. -/
def pySplit (sep : Char) : Str → List Str
  | [] => [[]]
  | c :: cs =>
      if c = sep then [] :: pySplit sep cs
      else
        match pySplit sep cs with
        | [] => [[c]]
        | r :: rs => (c :: r) :: rs

/-- gen_utils.update_id(hvar): a level with no dot maps to the population
keyword; otherwise the run id is the letter s followed by the zero-filled
(width 2) sublevel, i.e. the field after the first dot. -/
def update_id (hvar : Str) : Str :=
  if hvar.contains '.' then 's' :: zfill 2 ((pySplit '.' hvar).getD 1 [])
  else popKW

/-- The character for a decimal digit. -/
def digitChar (d : Nat) : Char := Char.ofNat (48 + d)

/-- Decimal representation of a natural number (fuel-based so that it is
structurally recursive); decReprAux (n+1) n is Python's str(n). -/
def decReprAux : Nat → Nat → Str
  | 0, _ => []
  | fuel + 1, n => if n < 10 then [digitChar n] else decReprAux fuel (n / 10) ++ [digitChar (n % 10)]

/-- Python str(n) for a natural number. -/
def decRepr (n : Nat) : Str := decReprAux (n + 1) n

/-- The Python f-string f".{i}" passed to update_id by _create_id_mapping. -/
def dotIndex (i : Nat) : Str := '.' :: decRepr i

/-- popkatdata.PoPKATData._create_id_mapping (with add_pop=True): sort the
dataset subject ids ascending, pair them with the run identifiers
update_id(".1"), update_id(".2"), ... in order, and append the sentinel
pop -> pop entry. -/
def create_id_mapping (dataIds : List Str) : List (Str × Str) :=
  let data_ids := dataIds.insertionSort (· ≤ ·)
  let sim_rnum := (List.range' 1 dataIds.length).map (fun i => update_id (dotIndex i))
  sim_rnum.zip data_ids ++ [(popKW, popKW)]

/-- The state of popkatdata.PoPKATData that the identifier lookups read:
the subject ids of the pkdata mapping (its keys). An empty list models a
save file with no PK datasets, for which `if self.pkdata:` is falsy. -/
structure PoPKATData where
  pkdataKeys : List Str
  deriving DecidableEq

/-- The id_map attribute built by the constructor. -/
def PoPKATData.id_map (d : PoPKATData) : List (Str × Str) :=
  create_id_mapping d.pkdataKeys

/-- The rev_id_map attribute: the value-to-key inversion of id_map. -/
def PoPKATData.rev_id_map (d : PoPKATData) : List (Str × Str) :=
  d.id_map.map Prod.swap

/-- Python dict lookup over insertion-ordered pairs: a later pair with the
same key overwrites an earlier one, so search the reversed list. -/
def dictLookup (m : List (Str × Str)) (k : Str) : Option Str :=
  m.reverse.lookup k

/-- popkatdata.PoPKATData.sim_rnum_to_data_id: with pkdata present, a dict
lookup that raises KeyError on an unknown run number; with no pkdata the
input is returned unchanged. -/
def PoPKATData.sim_rnum_to_data_id (d : PoPKATData) (sim_rnum : Str) : Except PyErr Str :=
  if d.pkdataKeys.isEmpty then .ok sim_rnum
  else
    match dictLookup d.id_map sim_rnum with
    | some v => .ok v
    | none => .error .keyError

/-- popkatdata.PoPKATData.data_id_to_sim_rnum: the reverse lookup, same
shape. -/
def PoPKATData.data_id_to_sim_rnum (d : PoPKATData) (data_id : Str) : Except PyErr Str :=
  if d.pkdataKeys.isEmpty then .ok data_id
  else
    match dictLookup d.rev_id_map data_id with
    | some v => .ok v
    | none => .error .keyError

/-- itertools.combinations(range(k), 2): every pair (i, j) with
i < j < k, in ascending lexicographic order. -/
def combinations2 (k : Nat) : List (Nat × Nat) :=
  (List.range k).flatMap (fun i => (List.range' (i + 1) (k - (i + 1))).map (fun j => (i, j)))

/-- One row of the tidy interaction dataframe sensitivity.calc_sensitivity
assembles (columns in assignment order). -/
structure SensRec where
  value : Rat
  sens_level : String
  pk_param : String
  model_param_1 : String
  model_param_2 : String
  deriving DecidableEq

/-- One PK-parameter column's pass through the interaction part of
sensitivity.SensitivityAnalysis.calc_sensitivity: names and vals are built
from itertools.combinations, then the tuple unpack
n1, n2 = list(zip(*names)) raises ValueError when names is empty, which
happens exactly when there are fewer than two model parameters. The
numeric S2 values come from the SALib analyzer, abstracted as S2. -/
def sens_interact_block (mparams : List String) (S2 : String → Nat → Nat → Rat)
    (cname : String) : Except PyErr (List SensRec) :=
  let names := combinations2 mparams.length
  if names = [] then .error .valueError
  else .ok (names.map (fun ij =>
    ⟨S2 cname ij.1 ij.2, "S2", cname, mparams.getD ij.1 "", mparams.getD ij.2 ""⟩))

/-- The loop of calc_sensitivity over the PK parameter columns, appending
each column's interaction records; the first raising column aborts the
analysis. -/
def sens_interactions_aux (mparams : List String) (S2 : String → Nat → Nat → Rat) :
    List String → Except PyErr (List SensRec)
  | [] => .ok []
  | cname :: rest => do
      let blk ← sens_interact_block mparams S2 cname
      let tail ← sens_interactions_aux mparams S2 rest
      pure (blk ++ tail)

/-- The interaction table of sensitivity.SensitivityAnalysis.calc_sensitivity:
for each PK parameter column, one S2 record per combination (i, j) of model
parameters, in the order itertools.combinations yields them; with fewer
than two model parameters the per-column tuple unpack raises instead. -/
def sens_interactions (pk_params mparams : List String) (S2 : String → Nat → Nat → Rat) :
    Except PyErr (List SensRec) :=
  sens_interactions_aux mparams S2 pk_params

/-- A Python value, as far as the sensitivity problem extraction is
concerned: whatever eval returns. -/
inductive PyVal where
  | pyNone
  | pyInt (n : Int)
  | pyStr (s : Str)
  | pyList (xs : List PyVal)
  | pyDictEntry (k v : PyVal)

/-- config/consts.py PROBLEM_MARKER = "#-SA-#". -/
def PROBLEM_MARKER : Str := ['#', '-', 'S', 'A', '-', '#']

/-- Python str.lstrip(chars): remove leading characters that belong to the
given character set (not the literal string). -/
def lstripSet (cs : Str) (s : Str) : Str := s.dropWhile (fun c => cs.contains c)

/-- Python whitespace test for str.strip(). -/
def isPySpace (c : Char) : Bool :=
  c == ' ' || c == '\t' || c == '\n' || c == '\r' || c == '\x0b' || c == '\x0c'

/-- Python str.strip(): drop whitespace from both ends. -/
def pyStrip (s : Str) : Str :=
  ((s.dropWhile isPySpace).reverse.dropWhile isPySpace).reverse

/-- The marker-prefixed lines of the setpoints file, after lstrip(marker)
and strip(), as sensitivity.SensitivityAnalysis._extract_problem collects
them. -/
def problemLines (fileLines : List Str) : List Str :=
  (fileLines.filter (fun l => PROBLEM_MARKER.isPrefixOf l)).map
    (fun l => pyStrip (lstripSet PROBLEM_MARKER l))

/-- sensitivity.SensitivityAnalysis._extract_problem: the collected lines
are joined with newlines and handed to Python's eval; the returned problem
is whatever value the evaluation produces, with no validation. The
evaluator is abstract: the embedding cannot (and must not) give evaluating
arbitrary program text a meaning beyond "some function of the text". -/
def extract_problem (pyEval : Str → PyVal) (fileLines : List Str) : PyVal :=
  pyEval (List.intercalate ['\n'] (problemLines fileLines))

/-- The points calc_elim_rate_const retains: concentration positive, paired
with their times. -/
def posPoints (t C : List Rat) : List (Rat × Rat) :=
  (t.zip C).filter (fun p => 0 < p.2)

/-- The (t, ln C) points the degree-1 fit inside calc_elim_rate_const
actually sees: the last ninterp of the retained points. -/
def elimFitPoints (lg : Rat → Rat) (t C : List Rat) (ninterp : Nat) : List (Rat × Rat) :=
  lastSlice ninterp ((posPoints t C).map (fun p => (p.1, lg p.2)))

/-- Squared-error objective of a candidate line y = a x + b over a list of
points: the quantity np.polyfit's least-squares fit minimises. -/
def sqErr (ps : List (Rat × Rat)) (a b : Rat) : Rat :=
  (ps.map (fun p => (p.2 - (a * p.1 + b)) ^ 2)).sum

lemma list_sum_nonneg {a : Type} (l : List a) (g : a → Rat) (h : ∀ x ∈ l, 0 ≤ g x) :
    0 ≤ (l.map g).sum := by
  induction l with
  | nil => simp
  | cons x xs ih =>
      simp only [List.map_cons, List.sum_cons]
      have hx := h x (List.mem_cons_self x xs)
      have hxs := ih (fun y hy => h y (List.mem_cons_of_mem x hy))
      linarith

lemma sum_affine (ps : List (Rat × Rat)) (u v w : Rat) :
    (ps.map (fun p => u * p.2 + v * p.1 + w)).sum
      = u * (ps.map Prod.snd).sum + v * (ps.map Prod.fst).sum + (ps.length : Rat) * w := by
  induction ps with
  | nil => simp
  | cons p l ih =>
      simp only [List.map_cons, List.sum_cons, List.length_cons, ih]
      push_cast
      ring

lemma sum_affine_x (ps : List (Rat × Rat)) (u v w : Rat) :
    (ps.map (fun p => (u * p.2 + v * p.1 + w) * p.1)).sum
      = u * (ps.map (fun p => p.1 * p.2)).sum + v * (ps.map (fun p => p.1 * p.1)).sum
        + w * (ps.map Prod.fst).sum := by
  induction ps with
  | nil => simp
  | cons p l ih =>
      simp only [List.map_cons, List.sum_cons, ih]
      ring

lemma polyfitDenom_ne_zero_ne_nil {ps : List (Rat × Rat)} (hD : polyfitDenom ps ≠ 0) :
    ps ≠ [] := by
  intro h
  subst h
  simp [polyfitDenom] at hD

/-- The residuals of the closed-form fit satisfy the first normal equation
(they sum to zero) and the second (they are orthogonal to the abscissae). -/
lemma fit_residual_sums (ps : List (Rat × Rat)) (hD : polyfitDenom ps ≠ 0) :
    (ps.map (fun p => p.2 - (fitSlope ps * p.1 + fitInter ps))).sum = 0 ∧
    (ps.map (fun p => (p.2 - (fitSlope ps * p.1 + fitInter ps)) * p.1)).sum = 0 := by
  have hne : ps ≠ [] := polyfitDenom_ne_zero_ne_nil hD
  have hn : ((ps.length : Rat)) ≠ 0 := by
    have hpos : 0 < ps.length := List.length_pos.mpr hne
    exact_mod_cast Nat.pos_iff_ne_zero.mp hpos
  have hf : (fun p : Rat × Rat => p.2 - (fitSlope ps * p.1 + fitInter ps))
      = fun p => 1 * p.2 + (-(fitSlope ps)) * p.1 + (-(fitInter ps)) := by
    funext p
    ring
  constructor
  · rw [hf, sum_affine]
    rw [fitInter]
    field_simp
    ring
  · have hg : (fun p : Rat × Rat => (p.2 - (fitSlope ps * p.1 + fitInter ps)) * p.1)
        = fun p => (1 * p.2 + (-(fitSlope ps)) * p.1 + (-(fitInter ps))) * p.1 := by
      funext p
      ring
    rw [hg, sum_affine_x]
    have hA : fitSlope ps * polyfitDenom ps
        = (ps.length : Rat) * (ps.map (fun p => p.1 * p.2)).sum
          - (ps.map Prod.fst).sum * (ps.map Prod.snd).sum := by
      rw [fitSlope, div_mul_cancel₀ _ hD]
    have hB : fitInter ps * (ps.length : Rat)
        = (ps.map Prod.snd).sum - fitSlope ps * (ps.map Prod.fst).sum := by
      rw [fitInter, div_mul_cancel₀ _ hn]
    rw [polyfitDenom] at hA
    have hGoal : (1 * (ps.map (fun p => p.1 * p.2)).sum
        + (-(fitSlope ps)) * (ps.map (fun p => p.1 * p.1)).sum
        + (-(fitInter ps)) * (ps.map Prod.fst).sum) * (ps.length : Rat) = 0 := by
      linear_combination (-1 : Rat) * hA - (ps.map Prod.fst).sum * hB
    rcases mul_eq_zero.mp hGoal with h | h
    · exact h
    · exact absurd h hn

lemma sqErr_decompose (ps : List (Rat × Rat)) (A B a b : Rat) :
    sqErr ps a b = sqErr ps A B
      + (ps.map (fun p => ((A - a) * p.1 + (B - b)) ^ 2)).sum
      + 2 * ((A - a) * (ps.map (fun p => (p.2 - (A * p.1 + B)) * p.1)).sum
             + (B - b) * (ps.map (fun p => p.2 - (A * p.1 + B))).sum) := by
  induction ps with
  | nil => simp [sqErr]
  | cons p l ih =>
      simp only [sqErr, List.map_cons, List.sum_cons] at ih ⊢
      linear_combination ih

/-- The closed-form slope/intercept pair is optimal for the least-squares
objective whenever the design matrix is full-rank. -/
lemma fit_optimal (ps : List (Rat × Rat)) (hD : polyfitDenom ps ≠ 0) (a b : Rat) :
    sqErr ps (fitSlope ps) (fitInter ps) ≤ sqErr ps a b := by
  obtain ⟨h1, h2⟩ := fit_residual_sums ps hD
  rw [sqErr_decompose ps (fitSlope ps) (fitInter ps) a b, h1, h2]
  have hsq : 0 ≤ (ps.map (fun p => ((fitSlope ps - a) * p.1 + (fitInter ps - b)) ^ 2)).sum :=
    list_sum_nonneg ps _ (fun x _ => sq_nonneg _)
  linarith

lemma lastSlice_eq_self {a : Type} {n : Nat} {xs : List a} (h : xs.length ≤ n) :
    lastSlice n xs = xs := by
  by_cases hn : n = 0
  · simp [lastSlice, hn]
  · simp [lastSlice, hn, Nat.sub_eq_zero_of_le h]

lemma lastSlice_length {a : Type} {n : Nat} {xs : List a} (hn : n ≠ 0) (h : n ≤ xs.length) :
    (lastSlice n xs).length = n := by
  simp [lastSlice, hn]
  omega

lemma lastSlice_ne_nil {a : Type} {n : Nat} {xs : List a} (hxs : xs ≠ []) :
    lastSlice n xs ≠ [] := by
  intro hcon
  by_cases hn : n = 0
  · rw [lastSlice, if_pos hn] at hcon
    exact hxs hcon
  · rw [lastSlice, if_neg hn] at hcon
    have hlen := congrArg List.length hcon
    rw [List.length_drop] at hlen
    have hpos : 0 < xs.length := List.length_pos.mpr hxs
    simp at hlen
    omega

lemma calc_elim_rate_const_eq (lg : Rat → Rat) (degSlope : List (Rat × Rat) → Rat)
    (t C : List Rat) (n : Nat) (hlen : t.length = C.length) :
    calc_elim_rate_const lg degSlope t C n
      = match polyfitSlope degSlope
          (lastSlice n (((t.zip C).filter (fun p => 0 < p.2)).map (fun p => (p.1, lg p.2)))) with
        | .error e => .error e
        | .ok slope => .ok (-slope) := by
  simp [calc_elim_rate_const, hlen]

/-- Whenever at least one positive concentration survives the filter, the
fit succeeds (with fewer points than the window numpy at most warns). -/
lemma calc_elim_rate_const_ok (lg : Rat → Rat) (degSlope : List (Rat × Rat) → Rat)
    (t C : List Rat) (n : Nat) (hlen : t.length = C.length)
    (hne : (t.zip C).filter (fun p => 0 < p.2) ≠ []) :
    ∃ ke, calc_elim_rate_const lg degSlope t C n = .ok ke := by
  rw [calc_elim_rate_const_eq lg degSlope t C n hlen]
  have hmap : ((t.zip C).filter (fun p => 0 < p.2)).map (fun p => (p.1, lg p.2)) ≠ [] := by
    simpa using hne
  have hfit := lastSlice_ne_nil (n := n) hmap
  rw [polyfitSlope, if_neg hfit]
  by_cases hD : polyfitDenom
      (lastSlice n (((t.zip C).filter (fun p => 0 < p.2)).map (fun p => (p.1, lg p.2)))) = 0
  · rw [if_pos hD]
    exact ⟨_, rfl⟩
  · rw [if_neg hD]
    exact ⟨_, rfl⟩

/-- C3: the sensitivity problem block is not parsed as validated data: the
extraction returns whatever Python's eval produces from the joined marked
lines, with no schema validation at all; an evaluator is free to return any
value (and, in Python, to run arbitrary code while doing so). This
contradicts the claim that the extraction never executes the file's text
and yields only a strictly validated structured payload. -/
theorem extract_problem_unvalidated (v : PyVal) (fileLines : List Str) :
    extract_problem (fun _ => v) fileLines = v := rfl

lemma lookup_eq_none_of_forall {m : List (Str × Str)} {k : Str}
    (h : ∀ p ∈ m, p.1 ≠ k) : List.lookup k m = none := by
  induction m with
  | nil => rfl
  | cons p l ih =>
      have hp := h p (List.mem_cons_self p l)
      have hbeq : (k == p.1) = false := by
        rcases Prod.mk.eta (p := p) ▸ hp with hne
        simp only [beq_eq_false_iff_ne, ne_eq]
        intro hk
        exact hp hk.symm
      simp only [List.lookup, hbeq]
      exact ih (fun q hq => h q (List.mem_cons_of_mem p hq))

lemma dictLookup_eq_none_of_forall {m : List (Str × Str)} {k : Str}
    (h : ∀ p ∈ m, p.1 ≠ k) : dictLookup m k = none := by
  rw [dictLookup]
  exact lookup_eq_none_of_forall (fun p hp => h p (List.mem_reverse.mp hp))

/-- C7 (amended): identifier lookups raise KeyError on an unknown key only
in the configuration where PK data is present; with no PK data loaded both
lookups return the queried identifier unchanged (a silent passthrough),
contrary to the claim that no configuration passes unknown identifiers
through. -/
theorem popkatdata_lookup_behavior (d : PoPKATData) (s : Str) :
    (d.pkdataKeys = [] →
      d.sim_rnum_to_data_id s = .ok s ∧ d.data_id_to_sim_rnum s = .ok s) ∧
    (d.pkdataKeys ≠ [] →
      ((∀ p ∈ d.id_map, p.1 ≠ s) → d.sim_rnum_to_data_id s = .error .keyError) ∧
      ((∀ p ∈ d.id_map, p.2 ≠ s) → d.data_id_to_sim_rnum s = .error .keyError)) := by
  constructor
  · intro hemp
    have : d.pkdataKeys.isEmpty = true := by simp [hemp]
    constructor
    · rw [PoPKATData.sim_rnum_to_data_id, if_pos this]
    · rw [PoPKATData.data_id_to_sim_rnum, if_pos this]
  · intro hne
    have : ¬ d.pkdataKeys.isEmpty = true := by simpa using hne
    constructor
    · intro hmiss
      rw [PoPKATData.sim_rnum_to_data_id, if_neg this,
        dictLookup_eq_none_of_forall hmiss]
    · intro hmiss
      have hrev : ∀ p ∈ d.rev_id_map, p.1 ≠ s := by
        intro p hp
        rcases List.mem_map.mp hp with ⟨q, hq, rfl⟩
        exact hmiss q hq
      rw [PoPKATData.data_id_to_sim_rnum, if_neg this,
        dictLookup_eq_none_of_forall hrev]

/-- C7 counterexample: with no PK data loaded (the forward-simulation
configuration), an unknown identifier is returned unchanged by both
lookups instead of any error being raised. -/
theorem popkatdata_lookup_passthrough_cex :
    PoPKATData.sim_rnum_to_data_id ⟨[]⟩ ['z', 'z'] = .ok ['z', 'z'] ∧
    PoPKATData.data_id_to_sim_rnum ⟨[]⟩ ['z', 'z'] = .ok ['z', 'z'] :=
  ⟨rfl, rfl⟩

lemma calc_elim_rate_const_eq2 (lg : Rat → Rat) (degSlope : List (Rat × Rat) → Rat)
    (t C : List Rat) (n : Nat) (hlen : t.length = C.length) :
    calc_elim_rate_const lg degSlope t C n
      = match polyfitSlope degSlope (elimFitPoints lg t C n) with
        | .error e => .error e
        | .ok slope => .ok (-slope) := by
  rw [calc_elim_rate_const_eq lg degSlope t C n hlen]
  rfl

lemma calc_elim_rate_const_empty (lg : Rat → Rat) (degSlope : List (Rat × Rat) → Rat)
    (t C : List Rat) (n : Nat) (hlen : t.length = C.length)
    (hemp : posPoints t C = []) :
    calc_elim_rate_const lg degSlope t C n = .error .emptyVector := by
  rw [calc_elim_rate_const_eq2 lg degSlope t C n hlen]
  have hfit : elimFitPoints lg t C n = [] := by
    rw [elimFitPoints, hemp]
    simp [lastSlice]
  rw [hfit]
  rfl

/-- C1 (amended): calc_elim_rate_const raises no InsufficientDataError.
With the window not filled (fewer positive points than n_tail_points) it
silently fits over all retained points and still returns a rate constant;
it fails only when no positive point remains at all, with np.polyfit's
empty-vector TypeError. When the window is filled it fits exactly the last
n_tail_points filtered (t, ln C) points and returns the negated slope of
the degree-1 least-squares line, which minimises the squared error over
all lines whenever the design is full-rank. -/
theorem calc_elim_rate_const_shrinks_window (lg : Rat → Rat)
    (degSlope : List (Rat × Rat) → Rat) (t C : List Rat) (ninterp : Nat)
    (hlen : t.length = C.length) (hnz : ninterp ≠ 0) :
    (posPoints t C = [] →
      calc_elim_rate_const lg degSlope t C ninterp = .error .emptyVector) ∧
    (posPoints t C ≠ [] → (posPoints t C).length < ninterp →
      elimFitPoints lg t C ninterp = (posPoints t C).map (fun p => (p.1, lg p.2)) ∧
      ∃ s, calc_elim_rate_const lg degSlope t C ninterp = .ok s) ∧
    (ninterp ≤ (posPoints t C).length →
      (elimFitPoints lg t C ninterp).length = ninterp ∧
      ∃ s, calc_elim_rate_const lg degSlope t C ninterp = .ok s ∧
        (polyfitDenom (elimFitPoints lg t C ninterp) ≠ 0 →
          s = -(fitSlope (elimFitPoints lg t C ninterp)) ∧
          ∀ a b, sqErr (elimFitPoints lg t C ninterp)
              (fitSlope (elimFitPoints lg t C ninterp))
              (fitInter (elimFitPoints lg t C ninterp))
            ≤ sqErr (elimFitPoints lg t C ninterp) a b)) := by
  refine ⟨?_, ?_, ?_⟩
  · exact calc_elim_rate_const_empty lg degSlope t C ninterp hlen
  · intro hne hlt
    constructor
    · rw [elimFitPoints]
      exact lastSlice_eq_self (by simpa using le_of_lt hlt)
    · exact calc_elim_rate_const_ok lg degSlope t C ninterp hlen hne
  · intro hge
    have hne : posPoints t C ≠ [] := by
      intro h
      rw [h] at hge
      simp at hge
      omega
    have hlenfit : (elimFitPoints lg t C ninterp).length = ninterp := by
      rw [elimFitPoints]
      exact lastSlice_length hnz (by simpa using hge)
    refine ⟨hlenfit, ?_⟩
    have hfitne : elimFitPoints lg t C ninterp ≠ [] := by
      intro h
      rw [h] at hlenfit
      exact hnz hlenfit.symm
    rw [calc_elim_rate_const_eq2 lg degSlope t C ninterp hlen, polyfitSlope, if_neg hfitne]
    by_cases hD : polyfitDenom (elimFitPoints lg t C ninterp) = 0
    · rw [if_pos hD]
      exact ⟨-(degSlope (elimFitPoints lg t C ninterp)), rfl, fun hD' => absurd hD hD'⟩
    · rw [if_neg hD]
      exact ⟨-(fitSlope (elimFitPoints lg t C ninterp)), rfl,
        fun _ => ⟨rfl, fun a b => fit_optimal _ hD a b⟩⟩

/-- C1 witness: four positive points and the default window of three; the
fit succeeds. -/
theorem calc_elim_rate_const_shrinks_window_witness :
    ∃ s, calc_elim_rate_const zeroLog zeroDeg [0, 1, 2, 3] [1, 2, 3, 4] 3 = .ok s := by
  obtain ⟨-, s, hs, -⟩ :=
    (calc_elim_rate_const_shrinks_window zeroLog zeroDeg [0, 1, 2, 3] [1, 2, 3, 4] 3
      rfl (by decide)).2.2 (by decide)
  exact ⟨s, hs⟩

/-- C1 counterexample: two positive points, a requested window of three.
The claim says this must fail with InsufficientDataError; the code fits
the smaller window and returns a rate constant. -/
theorem calc_elim_rate_const_silent_shrink_cex :
    (posPoints [0, 1] [1, 2]).length = 2 ∧
    calc_elim_rate_const zeroLog zeroDeg [0, 1] [1, 2] 3 = .ok 0 := by
  constructor
  · decide
  · simp [calc_elim_rate_const, polyfitSlope, polyfitDenom, fitSlope, lastSlice, zeroLog, zeroDeg]

/-- C8 (amended): whenever at least one concentration is positive (so the
always-computed elimination-rate fit does not raise), AUC with tail=False
is exactly the trapezoidal integral of C over t, AUC with tail=True is
that integral plus C[last] / kelim, and the concrete instance
AUC([0,1],[0,10], tail=False) = 5 holds for every logarithm and every
rank-deficient-fit value. -/
theorem calc_AUC_spec (lg : Rat → Rat) (degSlope : List (Rat × Rat) → Rat)
    (t C : List Rat) (ninterp : Nat)
    (hlen : t.length = C.length) (hne : posPoints t C ≠ []) :
    calc_AUC lg degSlope t C false ninterp = .ok (np_trapz C t) ∧
    (∀ ke cl, calc_elim_rate_const lg degSlope t C ninterp = .ok ke →
      C.getLast? = some cl →
      calc_AUC lg degSlope t C true ninterp = .ok (np_trapz C t + cl / ke)) ∧
    calc_AUC lg degSlope [0, 1] [0, 10] false 3 = .ok 5 := by
  obtain ⟨ke, hke⟩ := calc_elim_rate_const_ok lg degSlope t C ninterp hlen
    (by simpa [posPoints] using hne)
  refine ⟨?_, ?_, ?_⟩
  · rw [calc_AUC, hke]
    rfl
  · intro ke' cl hke' hcl
    rw [calc_AUC, hke', hcl]
    rfl
  · have helim : ∃ s, calc_elim_rate_const lg degSlope [0, 1] [0, 10] 3 = .ok s := by
      apply calc_elim_rate_const_ok lg degSlope [0, 1] [0, 10] 3 rfl
      decide
    obtain ⟨s, hs⟩ := helim
    rw [calc_AUC, hs]
    have htr : np_trapz [(0 : Rat), 10] [(0 : Rat), 1] = 5 := by
      norm_num [np_trapz, trapzAux]
    rw [htr]
    rfl

/-- C8 witness: a curve with only positive concentrations; the tail-free
AUC is the trapezoid. -/
theorem calc_AUC_spec_witness :
    calc_AUC zeroLog zeroDeg [0, 1] [1, 2] false 3 = .ok (np_trapz [1, 2] [0, 1]) :=
  (calc_AUC_spec zeroLog zeroDeg [0, 1] [1, 2] 3 rfl (by decide)).1

/-- C8 counterexample: with no positive concentration the tail-free AUC
does not equal the (well-defined) trapezoidal integral; it raises the
elimination fit's empty-vector error instead. -/
theorem calc_AUC_errors_on_no_positive_cex :
    calc_AUC zeroLog zeroDeg [0, 1] [0, 0] false 3 = .error .emptyVector ∧
    np_trapz [0, 0] [0, 1] = 0 := by
  constructor
  · simp [calc_AUC, calc_elim_rate_const, polyfitSlope, polyfitDenom, fitSlope, lastSlice,
      np_trapz, trapzAux, zeroLog, zeroDeg]
  · norm_num [np_trapz, trapzAux]

/-- C10 (amended): calc_AUC computes the elimination rate constant
unconditionally, also with inf=False where its value is unused, so any
error of the fit is the result of the plain AUC; in particular, when the
C > 0 filter leaves no point at all (an all-zero or all-negative curve)
the tail-free AUC fails with the fit's empty-vector error instead of
returning the trapezoidal integral. -/
theorem calc_AUC_unconditional_fit (lg : Rat → Rat) (degSlope : List (Rat × Rat) → Rat)
    (t C : List Rat) (ninterp : Nat) (inf : Bool) :
    (∀ e, calc_elim_rate_const lg degSlope t C ninterp = .error e →
      calc_AUC lg degSlope t C inf ninterp = .error e) ∧
    (t.length = C.length → posPoints t C = [] →
      calc_AUC lg degSlope t C inf ninterp = .error .emptyVector) := by
  constructor
  · intro e he
    rw [calc_AUC, he]
  · intro hlen hemp
    rw [calc_AUC, calc_elim_rate_const_empty lg degSlope t C ninterp hlen hemp]

/-- C10 witness: an all-nonpositive curve makes the tail-free AUC fail
with the fit's error. -/
theorem calc_AUC_unconditional_fit_witness :
    calc_AUC zeroLog zeroDeg [0, 1, 2] [0, -1, 0] false 3 = .error .emptyVector :=
  (calc_AUC_unconditional_fit zeroLog zeroDeg [0, 1, 2] [0, -1, 0] 3 false).2 rfl (by decide)

/-- C10 counterexample: a curve whose filter leaves two positive points,
fewer than the window of three; contrary to the claim the tail-free AUC
neither fails nor degenerates: it returns exactly the trapezoidal
integral. -/
theorem calc_AUC_ok_below_window_cex :
    (posPoints [0, 1, 2] [0, 1, 3]).length = 2 ∧
    calc_AUC zeroLog zeroDeg [0, 1, 2] [0, 1, 3] false 3 = .ok (5 / 2) ∧
    np_trapz [0, 1, 3] [0, 1, 2] = 5 / 2 := by
  refine ⟨by decide, ?_, ?_⟩
  · simp [calc_AUC, calc_elim_rate_const, polyfitSlope, polyfitDenom, fitSlope, lastSlice,
      np_trapz, trapzAux, zeroLog, zeroDeg]
    norm_num
  · simp [np_trapz, trapzAux]
    norm_num

lemma decReprAux_digits (fuel : Nat) : ∀ (n : Nat), ∀ c ∈ decReprAux fuel n, ∃ d, d < 10 ∧ c = digitChar d := by
  induction fuel with
  | zero => intro n c hc; simp [decReprAux] at hc
  | succ f ih =>
      intro n c hc
      rw [decReprAux] at hc
      by_cases h : n < 10
      · rw [if_pos h] at hc
        simp at hc
        exact ⟨n, h, hc⟩
      · rw [if_neg h] at hc
        rcases List.mem_append.mp hc with h1 | h2
        · exact ih (n / 10) c h1
        · simp at h2
          exact ⟨n % 10, Nat.mod_lt _ (by norm_num), h2⟩

lemma digitChar_ne_dot {d : Nat} (hd : d < 10) : digitChar d ≠ '.' := by
  interval_cases d <;> decide

lemma decRepr_no_dot (i : Nat) : ∀ c ∈ decRepr i, c ≠ '.' := by
  intro c hc
  obtain ⟨d, hd, rfl⟩ := decReprAux_digits (i + 1) i c hc
  exact digitChar_ne_dot hd

lemma pySplit_no_sep (sep : Char) (s : Str) (h : ∀ c ∈ s, c ≠ sep) : pySplit sep s = [s] := by
  induction s with
  | nil => rfl
  | cons c cs ih =>
      have hc : ¬ c = sep := h c (List.mem_cons_self c cs)
      have htail := ih (fun x hx => h x (List.mem_cons_of_mem _ hx))
      rw [pySplit, if_neg hc, htail]

lemma update_id_dotIndex (i : Nat) : update_id (dotIndex i) = 's' :: zfill 2 (decRepr i) := by
  have hsplit : pySplit '.' ('.' :: decRepr i) = [[], decRepr i] := by
    rw [pySplit, if_pos rfl, pySplit_no_sep '.' (decRepr i) (decRepr_no_dot i)]
  have hcontains : ('.' :: decRepr i).contains '.' = true := by
    simp [List.contains_cons]
  rw [update_id, dotIndex, if_pos hcontains, hsplit]
  rfl

/-- C2: _create_id_mapping sorts the dataset subject ids ascending
(lexicographically), pairs them in that order with the run identifiers
"s01".."sNN" (s plus the zero-filled, width-2 decimal index), adds the
sentinel pop -> pop, and is a deterministic function of the set of
subject ids: any permutation of the input yields the identical map. -/
theorem create_id_mapping_spec (ids : List Str) (hnd : ids.Nodup) :
    ((create_id_mapping ids).map Prod.fst
        = (List.range' 1 ids.length).map (fun i => 's' :: zfill 2 (decRepr i)) ++ [popKW]) ∧
    ((create_id_mapping ids).dropLast.map Prod.snd).Sorted (· ≤ ·) ∧
    List.Perm ((create_id_mapping ids).dropLast.map Prod.snd) ids ∧
    (popKW, popKW) ∈ create_id_mapping ids ∧
    (∀ ids2 : List Str, List.Perm ids ids2 → create_id_mapping ids2 = create_id_mapping ids) := by
  have hsortlen : (ids.insertionSort (· ≤ ·)).length = ids.length :=
    (List.perm_insertionSort _ ids).length_eq
  have hrnumlen :
      ((List.range' 1 ids.length).map (fun i => update_id (dotIndex i))).length = ids.length := by
    simp
  have hdrop : (create_id_mapping ids).dropLast
      = ((List.range' 1 ids.length).map (fun i => update_id (dotIndex i))).zip
          (ids.insertionSort (· ≤ ·)) := by
    rw [create_id_mapping]
    simp
  have hsnd : ((create_id_mapping ids).dropLast.map Prod.snd) = ids.insertionSort (· ≤ ·) := by
    rw [hdrop]
    exact List.map_snd_zip _ _ (by rw [hsortlen, hrnumlen])
  refine ⟨?_, ?_, ?_, ?_, ?_⟩
  · rw [create_id_mapping]
    simp only [List.map_append]
    have hfst : (((List.range' 1 ids.length).map (fun i => update_id (dotIndex i))).zip
        (ids.insertionSort (· ≤ ·))).map Prod.fst
          = (List.range' 1 ids.length).map (fun i => update_id (dotIndex i)) :=
      List.map_fst_zip _ _ (by rw [hsortlen, hrnumlen])
    rw [hfst]
    have hmap : (List.range' 1 ids.length).map (fun i => update_id (dotIndex i))
        = (List.range' 1 ids.length).map (fun i => 's' :: zfill 2 (decRepr i)) := by
      apply List.map_congr_left
      intro i _
      exact update_id_dotIndex i
    rw [hmap]
    rfl
  · rw [hsnd]
    exact List.sorted_insertionSort _ ids
  · rw [hsnd]
    exact List.perm_insertionSort _ ids
  · rw [create_id_mapping]
    simp
  · intro ids2 hperm
    have hp2 : List.Perm (ids2.insertionSort (· ≤ ·)) (ids.insertionSort (· ≤ ·)) :=
      (List.perm_insertionSort _ ids2).trans
        (hperm.symm.trans (List.perm_insertionSort _ ids).symm)
    have hsorteq : ids2.insertionSort (· ≤ ·) = ids.insertionSort (· ≤ ·) :=
      List.eq_of_perm_of_sorted hp2 (List.sorted_insertionSort _ ids2)
        (List.sorted_insertionSort _ ids)
    rw [create_id_mapping, create_id_mapping, hsorteq, hperm.length_eq]

/-- C2 witness: two subject ids given in descending order. -/
theorem create_id_mapping_spec_witness :
    (popKW, popKW) ∈ create_id_mapping [['b'], ['a']] :=
  (create_id_mapping_spec [['b'], ['a']] (by decide)).2.2.2.1

lemma list_range_map_sum (n : Nat) (f : Nat → Nat) :
    ((List.range n).map f).sum = ∑ i in Finset.range n, f i := by
  induction n with
  | zero => rfl
  | succ m ih =>
      rw [List.range_succ, List.map_append, List.sum_append, Finset.sum_range_succ, ih]
      rfl

lemma pairwise_flatMap_of {a b : Type} (r : b → b → Prop) (l : List a) (f : a → List b)
    (h1 : ∀ x ∈ l, (f x).Pairwise r)
    (h2 : l.Pairwise (fun x y => ∀ u ∈ f x, ∀ v ∈ f y, r u v)) :
    (l.flatMap f).Pairwise r := by
  induction l with
  | nil => simp
  | cons x t ih =>
      rw [List.flatMap_cons, List.pairwise_append]
      rcases List.pairwise_cons.mp h2 with ⟨hxy, ht⟩
      refine ⟨h1 x (List.mem_cons_self x t), ih (fun y hy => h1 y (List.mem_cons_of_mem x hy)) ht, ?_⟩
      intro u hu v hv
      rcases List.mem_flatMap.mp hv with ⟨y, hy, hvy⟩
      exact hxy y hy u hu v hvy

lemma filter_flatMap_single {a b : Type} (l : List a) (f : a → List b)
    (p : b → Bool) (x : a) (hx : x ∈ l) (hnd : l.Nodup)
    (h1 : ∀ u ∈ f x, p u = true)
    (h2 : ∀ y ∈ l, y ≠ x → ∀ u ∈ f y, p u = false) :
    (l.flatMap f).filter p = f x := by
  induction l with
  | nil => simp at hx
  | cons c t ih =>
      rw [List.flatMap_cons, List.filter_append]
      rcases List.nodup_cons.mp hnd with ⟨hct, htnd⟩
      by_cases hcx : c = x
      · subst hcx
        have htl : (t.flatMap f).filter p = [] := by
          rw [List.filter_eq_nil_iff]
          intro u hu
          rcases List.mem_flatMap.mp hu with ⟨y, hy, huy⟩
          have hyx : y ≠ c := fun h => hct (h ▸ hy)
          simp [h2 y (List.mem_cons_of_mem _ hy) hyx u huy]
        rw [htl, List.filter_eq_self.mpr (fun u hu => h1 u hu), List.append_nil]
      · have hxt : x ∈ t := by
          rcases List.mem_cons.mp hx with h | h
          · exact absurd h.symm hcx
          · exact h
        have hhd : (f c).filter p = [] := by
          rw [List.filter_eq_nil_iff]
          intro u hu
          simp [h2 c (List.mem_cons_self c t) hcx u hu]
        rw [hhd, List.nil_append]
        exact ih hxt htnd (fun y hy hyx u hu => h2 y (List.mem_cons_of_mem _ hy) hyx u hu)

lemma pairwise_lt_range' (s n : Nat) : (List.range' s n).Pairwise (· < ·) := by
  induction n generalizing s with
  | zero => simp
  | succ m ih =>
      rw [List.range'_succ]
      rw [List.pairwise_cons]
      refine ⟨?_, ih (s + 1)⟩
      intro j hj
      rcases List.mem_range'.mp hj with ⟨k, -, rfl⟩
      omega

lemma mem_combinations2 (k i j : Nat) : (i, j) ∈ combinations2 k ↔ i < j ∧ j < k := by
  rw [combinations2]
  constructor
  · intro h
    rcases List.mem_flatMap.mp h with ⟨i', hi', hmem⟩
    rcases List.mem_map.mp hmem with ⟨j', hj', hpair⟩
    rcases List.mem_range'.mp hj' with ⟨m, hm, rfl⟩
    rcases Prod.mk.injEq .. ▸ hpair with ⟨h1, h2⟩
    have hik := List.mem_range.mp hi'
    constructor
    · omega
    · omega
  · rintro ⟨hij, hjk⟩
    apply List.mem_flatMap.mpr
    refine ⟨i, List.mem_range.mpr (lt_trans hij hjk), ?_⟩
    apply List.mem_map.mpr
    refine ⟨j, ?_, rfl⟩
    apply List.mem_range'.mpr
    exact ⟨j - (i + 1), by omega, by omega⟩

lemma length_combinations2 (k : Nat) : (combinations2 k).length = k * (k - 1) / 2 := by
  rw [combinations2, List.length_flatMap]
  have hmap : (List.map (List.length ∘ fun i =>
      (List.range' (i + 1) (k - (i + 1))).map (fun j => (i, j))) (List.range k))
        = (List.range k).map (fun i => k - 1 - i) := by
    apply List.map_congr_left
    intro i _
    simp
    omega
  rw [hmap, list_range_map_sum]
  have hrefl := Finset.sum_range_reflect (fun i => i) k
  simp only at hrefl
  calc (∑ i in Finset.range k, (k - 1 - i)) = ∑ i in Finset.range k, i := hrefl
    _ = k * (k - 1) / 2 := Finset.sum_range_id k

lemma pairwise_combinations2 (k : Nat) :
    (combinations2 k).Pairwise (fun p q => p.1 < q.1 ∨ (p.1 = q.1 ∧ p.2 < q.2)) := by
  rw [combinations2]
  apply pairwise_flatMap_of
  · intro i _
    rw [List.pairwise_map]
    apply List.Pairwise.imp ?_ (pairwise_lt_range' (i + 1) (k - (i + 1)))
    intro u v huv
    right
    exact ⟨rfl, huv⟩
  · have hpw : (List.range k).Pairwise (· < ·) := (List.sorted_lt_range k)
    apply List.Pairwise.imp ?_ hpw
    intro i i' hii'
    intro u hu v hv
    rcases List.mem_map.mp hu with ⟨j, -, rfl⟩
    rcases List.mem_map.mp hv with ⟨j', -, rfl⟩
    left
    exact hii'

lemma except_bind_ok {a b : Type} (x : a) (f : a → Except PyErr b) :
    (Except.ok x : Except PyErr a) >>= f = f x := rfl

lemma combinations2_eq_nil {k : Nat} (hk : k < 2) : combinations2 k = [] := by
  interval_cases k
  · rfl
  · rfl

lemma sens_interactions_ok (pk_params mparams : List String)
    (S2 : String → Nat → Nat → Rat) (hne : combinations2 mparams.length ≠ []) :
    sens_interactions pk_params mparams S2
      = .ok (pk_params.flatMap (fun cname =>
          (combinations2 mparams.length).map (fun ij =>
            ⟨S2 cname ij.1 ij.2, "S2", cname, mparams.getD ij.1 "", mparams.getD ij.2 ""⟩))) := by
  rw [sens_interactions]
  induction pk_params with
  | nil => rfl
  | cons cname rest ih =>
      rw [sens_interactions_aux, sens_interact_block]
      simp only [if_neg hne, except_bind_ok, ih, List.flatMap_cons]
      rfl

/-- C6 (amended): with at least two model parameters, calc_sensitivity
emits, per PK parameter, exactly C(k,2) = k(k-1)/2 interaction records,
one per unordered pair (i, j) of model-parameter indices with i < j,
enumerated in ascending lexicographic (i, j) order, so interaction tables
are order-stable; with fewer than two model parameters (where C(k,2) = 0)
the tuple unpack n1, n2 = list(zip(*names)) raises ValueError on the
first PK column instead of emitting an empty table. -/
theorem sens_interactions_spec (pk_params mparams : List String)
    (S2 : String → Nat → Nat → Rat) (c : String)
    (hnd : pk_params.Nodup) (hc : c ∈ pk_params) :
    (2 ≤ mparams.length →
      ∃ recs, sens_interactions pk_params mparams S2 = .ok recs ∧
        recs.filter (fun r => r.pk_param == c)
          = (combinations2 mparams.length).map (fun ij =>
              ⟨S2 c ij.1 ij.2, "S2", c, mparams.getD ij.1 "", mparams.getD ij.2 ""⟩) ∧
        (recs.filter (fun r => r.pk_param == c)).length
          = mparams.length * (mparams.length - 1) / 2 ∧
        (recs.filter (fun r => r.pk_param == c)).length = (mparams.length).choose 2) ∧
    (∀ i j, (i, j) ∈ combinations2 mparams.length ↔ i < j ∧ j < mparams.length) ∧
    (combinations2 mparams.length).Pairwise
      (fun p q => p.1 < q.1 ∨ (p.1 = q.1 ∧ p.2 < q.2)) ∧
    (mparams.length < 2 →
      sens_interactions pk_params mparams S2 = .error .valueError) := by
  refine ⟨?_, mem_combinations2 mparams.length, pairwise_combinations2 mparams.length, ?_⟩
  · intro hk
    have hcne : combinations2 mparams.length ≠ [] := by
      intro h0
      have hmem := (mem_combinations2 mparams.length 0 1).mpr ⟨by norm_num, by omega⟩
      rw [h0] at hmem
      simp at hmem
    refine ⟨_, sens_interactions_ok pk_params mparams S2 hcne, ?_, ?_, ?_⟩
    · apply filter_flatMap_single pk_params _ _ c hc hnd
      · intro u hu
        rcases List.mem_map.mp hu with ⟨ij, -, rfl⟩
        simp
      · intro y hy hyc u hu
        rcases List.mem_map.mp hu with ⟨ij, -, rfl⟩
        simp [hyc]
    · rw [filter_flatMap_single pk_params _ _ c hc hnd
        (by
          intro u hu
          rcases List.mem_map.mp hu with ⟨ij, -, rfl⟩
          simp)
        (by
          intro y hy hyc u hu
          rcases List.mem_map.mp hu with ⟨ij, -, rfl⟩
          simp [hyc]),
        List.length_map, length_combinations2]
    · rw [filter_flatMap_single pk_params _ _ c hc hnd
        (by
          intro u hu
          rcases List.mem_map.mp hu with ⟨ij, -, rfl⟩
          simp)
        (by
          intro y hy hyc u hu
          rcases List.mem_map.mp hu with ⟨ij, -, rfl⟩
          simp [hyc]),
        List.length_map, length_combinations2, Nat.choose_two_right]
  · intro hk
    have hcomb : combinations2 mparams.length = [] := combinations2_eq_nil hk
    cases pk_params with
    | nil => exact absurd hc (List.not_mem_nil c)
    | cons cname rest =>
        rw [sens_interactions, sens_interactions_aux, sens_interact_block]
        simp only [if_pos hcomb]
        rfl

/-- C6 witness: one PK parameter, three model parameters, three
interaction records. -/
theorem sens_interactions_spec_witness :
    ∃ recs, sens_interactions ["AUC"] ["p1", "p2", "p3"] (fun _ _ _ => 0) = .ok recs ∧
      (recs.filter (fun r => r.pk_param == "AUC")).length = 3 := by
  obtain ⟨recs, hok, -, hlen, -⟩ :=
    (sens_interactions_spec ["AUC"] ["p1", "p2", "p3"] (fun _ _ _ => 0) "AUC"
      (List.nodup_singleton _) (List.mem_singleton_self _)).1 (by norm_num)
  refine ⟨recs, hok, ?_⟩
  rw [hlen]
  decide

/-- C6 counterexample: with a single model parameter the claim promises
C(1,2) = 0 interaction records per PK parameter; the code instead raises
ValueError at the tuple unpack on the first PK column, emitting no table
at all. -/
theorem sens_interactions_unpack_cex :
    Nat.choose 1 2 = 0 ∧
    sens_interactions ["AUC"] ["p1"] (fun _ _ _ => 0) = .error .valueError := by
  constructor
  · rfl
  · rfl

lemma mem_uniqueAux {a : Type} [DecidableEq a] :
    ∀ (l seen : List a) (x : a), x ∈ uniqueAux l seen ↔ x ∈ l ∧ x ∉ seen := by
  intro l
  induction l with
  | nil => intro seen x; simp [uniqueAux]
  | cons c t ih =>
      intro seen x
      rw [uniqueAux]
      by_cases hc : c ∈ seen
      · rw [if_pos hc, ih]
        constructor
        · rintro ⟨hxt, hxs⟩
          exact ⟨List.mem_cons_of_mem _ hxt, hxs⟩
        · rintro ⟨hx, hxs⟩
          rcases List.mem_cons.mp hx with rfl | h
          · exact absurd hc hxs
          · exact ⟨h, hxs⟩
      · rw [if_neg hc]
        constructor
        · intro hmem
          rcases List.mem_cons.mp hmem with rfl | hrest
          · exact ⟨List.mem_cons_self _ _, hc⟩
          · rcases (ih (c :: seen) x).mp hrest with ⟨hxt, hxs⟩
            exact ⟨List.mem_cons_of_mem _ hxt,
              fun h => hxs (List.mem_cons_of_mem _ h)⟩
        · rintro ⟨hx, hxs⟩
          rcases List.mem_cons.mp hx with rfl | hxt
          · exact List.mem_cons_self _ _
          · by_cases hxc : x = c
            · subst hxc
              exact List.mem_cons_self _ _
            · apply List.mem_cons_of_mem
              apply (ih (c :: seen) x).mpr
              refine ⟨hxt, ?_⟩
              intro hmem
              rcases List.mem_cons.mp hmem with h | h
              · exact hxc h
              · exact hxs h

lemma uniqueAux_nodup {a : Type} [DecidableEq a] : ∀ (l seen : List a), (uniqueAux l seen).Nodup := by
  intro l
  induction l with
  | nil => intro seen; simp [uniqueAux]
  | cons c t ih =>
      intro seen
      rw [uniqueAux]
      by_cases hc : c ∈ seen
      · rw [if_pos hc]
        exact ih seen
      · rw [if_neg hc]
        rw [List.nodup_cons]
        refine ⟨?_, ih (c :: seen)⟩
        intro hmem
        rcases (mem_uniqueAux t (c :: seen) c).mp hmem with ⟨-, hns⟩
        exact hns (List.mem_cons_self c seen)

lemma uniqueFirst_nodup {a : Type} [DecidableEq a] (l : List a) : (uniqueFirst l).Nodup :=
  uniqueAux_nodup l []

lemma mem_uniqueFirst {a : Type} [DecidableEq a] {l : List a} {x : a} :
    x ∈ uniqueFirst l ↔ x ∈ l := by
  rw [uniqueFirst, mem_uniqueAux]
  simp

lemma np_interp_left (x : Rat) (p : Rat × Rat) (ps : List (Rat × Rat)) (h : x ≤ p.1) :
    np_interp x (p :: ps) = p.2 := by
  cases ps with
  | nil => rfl
  | cons q rest => simp [np_interp, h]

lemma np_interp_right (x : Rat) :
    ∀ ps : List (Rat × Rat), ps.Chain' (fun a b => a.1 < b.1) → (∀ u ∈ ps, u.1 ≤ x) →
      np_interp x ps = (ps.getLastD (0, 0)).2 := by
  intro ps
  induction ps with
  | nil => intro _ _; rfl
  | cons p tail ih =>
      intro hch hall
      cases tail with
      | nil => rfl
      | cons q rest =>
          have hpq : p.1 < q.1 := (List.chain'_cons.mp hch).1
          have hqx : q.1 ≤ x := hall q (by simp)
          have hnx : ¬ x ≤ p.1 := by
            intro hxp
            linarith
          rw [List.getLastD_cons]
          by_cases hxq : x ≤ q.1
          · have hxeq : x = q.1 := le_antisymm hxq hqx
            cases rest with
            | nil =>
                have hne2 : q.1 - p.1 ≠ 0 := sub_ne_zero.mpr (ne_of_gt hpq)
                show np_interp x [p, q] = q.2
                simp only [np_interp, if_neg hnx, if_pos hxq]
                rw [hxeq]
                field_simp
            | cons u rest2 =>
                exfalso
                have hqu : q.1 < u.1 := (List.chain'_cons.mp (List.chain'_cons.mp hch).2).1
                have hux : u.1 ≤ x := hall u (by simp)
                linarith
          · have htail := ih (List.chain'_cons.mp hch).2
              (fun u hu => hall u (List.mem_cons_of_mem _ hu))
            rw [List.getLastD_cons] at htail
            show np_interp x (p :: q :: rest) = ((q :: rest).getLastD p).2
            simp only [np_interp, if_neg hnx, if_neg hxq]
            rw [htail, List.getLastD_cons]

/-- C4: the residual computation interpolates each identifier's simulated
series onto that identifier's observed time points (np.interp:
piecewise-linear, clamped to the first value below the range and to the
last value at and beyond it), returns (observed - interpolated)/observed
per observed point, yields the undefined value for a zero observation
instead of raising, and maps observed [2,4] against interpolated [2,2]
to [0, 1/2]. -/
theorem calc_df_diff_spec (sim_df data_df : List SimRow) (ov : Str) (idt : Str)
    (hidt : idt ∈ sim_df.map (fun r => r.ident)) :
    ((MC_calc_df_diff sim_df data_df ov).filter (fun rcd => rcd.ident = idt)
        = (data_df.filter (fun r => r.ident = idt)).map (fun r =>
            ⟨r.time, relDiff r.dep_var (np_interp r.time
                ((sim_df.filter (fun r => r.ident = idt)).map (fun r => (r.time, r.dep_var)))),
              idt, ov⟩)) ∧
    (∀ vi : Rat, relDiff 0 vi = none) ∧
    (∀ (x : Rat) (p : Rat × Rat) (ps : List (Rat × Rat)), x ≤ p.1 →
      np_interp x (p :: ps) = p.2) ∧
    (∀ (x : Rat) (ps : List (Rat × Rat)), ps.Chain' (fun a b => a.1 < b.1) →
      (∀ u ∈ ps, u.1 ≤ x) → np_interp x ps = (ps.getLastD (0, 0)).2) ∧
    MC_calc_df_diff [⟨['a'], 0, 2⟩, ⟨['a'], 1, 2⟩] [⟨['a'], 0, 2⟩, ⟨['a'], 1, 4⟩] ['C']
      = [⟨0, some 0, ['a'], ['C']⟩, ⟨1, some (1 / 2), ['a'], ['C']⟩] := by
  refine ⟨?_, fun vi => rfl, np_interp_left, np_interp_right, ?_⟩
  · have hmem : idt ∈ uniqueFirst (sim_df.map (fun r => r.ident)) :=
      mem_uniqueFirst.mpr hidt
    exact filter_flatMap_single (uniqueFirst (sim_df.map (fun r => r.ident)))
      (fun i : Str =>
        (data_df.filter (fun r => r.ident = i)).map (fun r =>
          DiffRec.mk r.time (relDiff r.dep_var (np_interp r.time
              ((sim_df.filter (fun r => r.ident = i)).map (fun r => (r.time, r.dep_var)))))
            i ov))
      (fun rcd : DiffRec => decide (rcd.ident = idt)) idt hmem
      (uniqueFirst_nodup _)
      (by
        intro u hu
        rcases List.mem_map.mp hu with ⟨r, -, rfl⟩
        simp)
      (by
        intro y hy hyx u hu
        rcases List.mem_map.mp hu with ⟨r, -, rfl⟩
        simp [hyx])
  · norm_num [MC_calc_df_diff, uniqueFirst, uniqueAux, np_interp, relDiff]

/-- C4 witness: one shared identifier, observed [2,4] against a flat
simulated curve with value 2. -/
theorem calc_df_diff_spec_witness :
    MC_calc_df_diff [⟨['a'], 0, 2⟩, ⟨['a'], 1, 2⟩] [⟨['a'], 0, 2⟩, ⟨['a'], 1, 4⟩] ['C']
      = [⟨0, some 0, ['a'], ['C']⟩, ⟨1, some (1 / 2), ['a'], ['C']⟩] :=
  (calc_df_diff_spec [⟨['a'], 0, 2⟩, ⟨['a'], 1, 2⟩] [⟨['a'], 0, 2⟩, ⟨['a'], 1, 4⟩] ['C'] ['a']
    (by decide)).2.2.2.2

lemma getD_replicate {m i : Nat} {c : Rat} (h : i < m) :
    (List.replicate m c).getD i 0 = c := by
  rw [List.getD_eq_getElem?_getD, List.getElem?_replicate, if_pos h]
  rfl

lemma insertionSort_replicate (m : Nat) (c : Rat) :
    (List.replicate m c).insertionSort (· ≤ ·) = List.replicate m c := by
  have hperm : List.Perm ((List.replicate m c).insertionSort (· ≤ ·)) (List.replicate m c) :=
    List.perm_insertionSort _ _
  have hlen : ((List.replicate m c).insertionSort (· ≤ ·)).length = m := by
    rw [hperm.length_eq, List.length_replicate]
  have h2 := List.eq_replicate_of_mem
    (fun b hb => List.eq_of_mem_replicate (hperm.mem_iff.mp hb))
  rw [hlen] at h2
  exact h2

lemma qLinear_replicate (m : Nat) (c : Rat) (q : Rat)
    (hm : 0 < m) (h0 : 0 ≤ q) (h1 : q ≤ 1) :
    qLinear (List.replicate m c) q = c := by
  rw [qLinear]
  simp only [List.length_replicate]
  have hm1 : (0 : Rat) ≤ (m : Rat) - 1 := by
    have : (1 : Rat) ≤ (m : Rat) := by exact_mod_cast hm
    linarith
  have hh0 : 0 ≤ q * ((m : Rat) - 1) := mul_nonneg h0 hm1
  have hhle : q * ((m : Rat) - 1) ≤ (m : Rat) - 1 := by
    have := mul_le_mul_of_nonneg_right h1 hm1
    linarith
  have hfl0 : 0 ≤ ⌊q * ((m : Rat) - 1)⌋ := Int.floor_nonneg.mpr hh0
  have hflle : ⌊q * ((m : Rat) - 1)⌋ ≤ (m : Int) - 1 := by
    have hcast : ((m : Int) - 1 : Int) = ⌊((m : Rat) - 1 : Rat)⌋ := by
      rw [show ((m : Rat) - 1 : Rat) = (((m : Int) - 1 : Int) : Rat) by push_cast; ring,
        Int.floor_intCast]
    rw [hcast]
    exact Int.floor_le_floor hhle
  have hkm : (⌊q * ((m : Rat) - 1)⌋).toNat < m := by omega
  rw [getD_replicate hkm]
  by_cases hk1 : (⌊q * ((m : Rat) - 1)⌋).toNat + 1 < m
  · rw [getD_replicate hk1]
    ring
  · have hkeq : (⌊q * ((m : Rat) - 1)⌋).toNat = m - 1 := by omega
    have hfleq : (⌊q * ((m : Rat) - 1)⌋ : Rat) = (m : Rat) - 1 := by
      have hint : ⌊q * ((m : Rat) - 1)⌋ = (m : Int) - 1 := by omega
      rw [hint]
      push_cast
      ring
    have hheq : q * ((m : Rat) - 1) = (m : Rat) - 1 := by
      have hfl_le := Int.floor_le (q * ((m : Rat) - 1))
      linarith
    have hfrac : q * ((m : Rat) - 1) - (⌊q * ((m : Rat) - 1)⌋ : Rat) = 0 := by
      linarith
    rw [hfrac]
    ring

lemma colQuantile_replicate (m : Nat) (r : List Rat) (j : Nat) (q : Rat)
    (hm : 0 < m) (h0 : 0 ≤ q) (h1 : q ≤ 1) :
    colQuantile (List.replicate m r) j q = r.getD j 0 := by
  rw [colQuantile, List.map_replicate, insertionSort_replicate,
    qLinear_replicate m _ q hm h0 h1]

lemma quantileRow_replicate (m : Nat) (r : List Rat) (q : Rat)
    (hm : 0 < m) (h0 : 0 ≤ q) (h1 : q ≤ 1) :
    quantileRow (List.replicate m r) q = r := by
  rw [quantileRow]
  have hhead : (List.replicate m r).headD [] = r := by
    cases m with
    | zero => omega
    | succ k => rfl
  rw [hhead]
  apply List.ext_getElem
  · simp
  · intro i hi1 hi2
    simp only [List.getElem_map, List.getElem_range]
    rw [colQuantile_replicate m r i q hm h0 h1]
    rw [List.getD_eq_getElem?_getD, List.getElem?_eq_getElem hi2]
    rfl

/-- C5: on an ensemble matrix whose rows are all one and the same row
(the single-row matrix included), _calc_confint returns lower = dep_var =
upper = that row, one value per time column, for any quantile triple (each
quantile lying in the unit interval, as pandas requires), without
raising. -/
theorem calc_confint_identical_rows (m : Nat) (r : List Rat) (q1 q2 q3 : Rat)
    (hm : 0 < m) (h10 : 0 ≤ q1) (h11 : q1 ≤ 1) (h20 : 0 ≤ q2) (h21 : q2 ≤ 1)
    (h30 : 0 ≤ q3) (h31 : q3 ≤ 1) :
    MC_calc_confint (List.replicate m r) (q1, q2, q3) = .ok (r, r, r) := by
  rw [MC_calc_confint, if_pos ⟨h10, h11, h20, h21, h30, h31⟩]
  rw [quantileRow_replicate m r q1 hm h10 h11, quantileRow_replicate m r q2 hm h20 h21,
    quantileRow_replicate m r q3 hm h30 h31]

/-- C5 witness: two identical rows, the default 95 percent quantile
triple (scaled to rationals). -/
theorem calc_confint_identical_rows_witness :
    MC_calc_confint (List.replicate 2 [3, 4]) (1 / 40, 1 / 2, 39 / 40)
      = .ok ([3, 4], [3, 4], [3, 4]) :=
  calc_confint_identical_rows 2 [3, 4] (1 / 40) (1 / 2) (39 / 40) (by norm_num)
    (by norm_num) (by norm_num) (by norm_num) (by norm_num) (by norm_num) (by norm_num)

lemma posPoints_ne_nil_parts {t C : List Rat} (h : posPoints t C ≠ []) :
    t ≠ [] ∧ C ≠ [] := by
  constructor
  · intro h0
    subst h0
    simp [posPoints] at h
  · intro h0
    subst h0
    simp [posPoints] at h

lemma calc_AUC_false_ok (lg : Rat → Rat) (degSlope : List (Rat × Rat) → Rat)
    (t C : List Rat) (n : Nat) (hlen : t.length = C.length) (hne : posPoints t C ≠ []) :
    calc_AUC lg degSlope t C false n = .ok (np_trapz C t) := by
  obtain ⟨ke, hke⟩ := calc_elim_rate_const_ok lg degSlope t C n hlen
    (by simpa [posPoints] using hne)
  rw [calc_AUC, hke]
  rfl

lemma calc_AUC_true_ok (lg : Rat → Rat) (degSlope : List (Rat × Rat) → Rat)
    (t C : List Rat) (n : Nat) (hlen : t.length = C.length) (hne : posPoints t C ≠ []) :
    ∃ v, calc_AUC lg degSlope t C true n = .ok v := by
  obtain ⟨ke, hke⟩ := calc_elim_rate_const_ok lg degSlope t C n hlen
    (by simpa [posPoints] using hne)
  have hCne : C ≠ [] := (posPoints_ne_nil_parts hne).2
  rcases hC : C.getLast? with - | cl
  · rw [List.getLast?_eq_none_iff] at hC
    exact absurd hC hCne
  · refine ⟨np_trapz C t + cl / ke, ?_⟩
    rw [calc_AUC, hke, hC]
    rfl

lemma calc_mrt_ok (lg : Rat → Rat) (degSlope : List (Rat × Rat) → Rat)
    (t C : List Rat) (n : Nat) (hlen : t.length = C.length) (hne : posPoints t C ≠ []) :
    calc_mean_residence_time lg degSlope t C n
      = .ok (np_trapz (C.zipWith (· * ·) t) t / np_trapz C t) := by
  rw [calc_mean_residence_time, if_neg (fun h => h hlen),
    calc_AUC_false_ok lg degSlope t C n hlen hne]

lemma argmaxAux_lt : ∀ (l : List Rat) (bi : Nat) (bv : Rat) (i : Nat),
    bi < i → argmaxAux l bi bv i < i + l.length := by
  intro l
  induction l with
  | nil =>
      intro bi bv i h
      simp [argmaxAux]
      omega
  | cons x xs ih =>
      intro bi bv i h
      rw [argmaxAux]
      by_cases hc : bv < x
      · rw [if_pos hc]
        have := ih i x (i + 1) (by omega)
        simp only [List.length_cons]
        omega
      · rw [if_neg hc]
        have := ih bi bv (i + 1) (by omega)
        simp only [List.length_cons]
        omega

lemma np_argmax_ok {C : List Rat} (h : C ≠ []) :
    ∃ i, np_argmax C = .ok i ∧ i < C.length := by
  cases C with
  | nil => exact absurd rfl h
  | cons x xs =>
      refine ⟨argmaxAux xs 0 x 1, rfl, ?_⟩
      have := argmaxAux_lt xs 0 x 1 (by omega)
      simp only [List.length_cons]
      omega

lemma calc_tmax_ok (t C : List Rat) (hlen : t.length = C.length) (hC : C ≠ []) :
    ∃ v, calc_tmax t C = .ok v := by
  obtain ⟨i, hi, hilt⟩ := np_argmax_ok hC
  have hit : i < t.length := by omega
  refine ⟨t.get ⟨i, hit⟩, ?_⟩
  rw [calc_tmax, hi]
  show (match t[i]? with
    | none => Except.error PyErr.indexError
    | some v => Except.ok v) = Except.ok (t.get ⟨i, hit⟩)
  rw [List.getElem?_eq_getElem hit]
  rfl

lemma calc_cmax_ok (t C : List Rat) (hC : C ≠ []) :
    ∃ v, calc_cmax t C = .ok v := by
  obtain ⟨i, hi, hilt⟩ := np_argmax_ok hC
  refine ⟨C.get ⟨i, hilt⟩, ?_⟩
  rw [calc_cmax, hi]
  show (match C[i]? with
    | none => Except.error PyErr.indexError
    | some v => Except.ok v) = Except.ok (C.get ⟨i, hilt⟩)
  rw [List.getElem?_eq_getElem hilt]
  rfl

lemma calc_clearance_ok (lg : Rat → Rat) (degSlope : List (Rat × Rat) → Rat)
    (t C : List Rat) (d : Rat) (n : Nat)
    (hlen : t.length = C.length) (hne : posPoints t C ≠ []) :
    ∃ v, calc_clearance lg degSlope t C d n = .ok v := by
  obtain ⟨vinf, hvinf⟩ := calc_AUC_true_ok lg degSlope t C n hlen hne
  exact ⟨_, by rw [calc_clearance, hvinf]⟩

lemma calc_vd_ok (lg : Rat → Rat) (degSlope : List (Rat × Rat) → Rat)
    (t C : List Rat) (d : Rat) (n : Nat)
    (hlen : t.length = C.length) (hne : posPoints t C ≠ []) :
    ∃ v, calc_volume_of_distribution lg degSlope t C d n = .ok v := by
  obtain ⟨ke, hke⟩ := calc_elim_rate_const_ok lg degSlope t C n hlen
    (by simpa [posPoints] using hne)
  obtain ⟨vcl, hcl⟩ := calc_clearance_ok lg degSlope t C d n hlen hne
  exact ⟨_, by rw [calc_volume_of_distribution, hke, hcl]⟩

/-- C9 (amended): whenever the curve has at least one positive
concentration (so every underlying computation succeeds) and t, C have
equal length, calc_all_pk returns a parameter set whose keys are always
AUC, AUC_inf, MRT, tmax, Cmax, kelim and t_half, with clearance and
volume_of_distribution present exactly when the supplied dose is truthy
in Python's sense, that is, present and nonzero; a supplied dose of 0 is
treated like no dose at all. -/
theorem calc_all_pk_keys (lg : Rat → Rat) (degSlope : List (Rat × Rat) → Rat)
    (t C : List Rat) (dose : Option Rat) (ninterp : Nat)
    (hlen : t.length = C.length) (hne : posPoints t C ≠ []) :
    ∃ ps, calc_all_pk lg degSlope t C dose ninterp = .ok ps ∧
      ps.map Prod.fst = ["AUC", "AUC_inf", "MRT", "tmax", "Cmax", "kelim", "t_half"]
        ++ (if doseTruthy dose then ["clearance", "volume_of_distribution"] else []) ∧
      ("clearance" ∈ ps.map Prod.fst ↔ doseTruthy dose = true) := by
  have hCne : C ≠ [] := (posPoints_ne_nil_parts hne).2
  obtain ⟨ke, hke⟩ := calc_elim_rate_const_ok lg degSlope t C ninterp hlen
    (by simpa [posPoints] using hne)
  have hauc := calc_AUC_false_ok lg degSlope t C ninterp hlen hne
  obtain ⟨vinf, hvinf⟩ := calc_AUC_true_ok lg degSlope t C ninterp hlen hne
  have hmrt := calc_mrt_ok lg degSlope t C ninterp hlen hne
  obtain ⟨vtm, htm⟩ := calc_tmax_ok t C hlen hCne
  obtain ⟨vcm, hcm⟩ := calc_cmax_ok t C hCne
  have hth : calc_elim_half_life lg degSlope t C ninterp = .ok (lg 2 / ke) := by
    rw [calc_elim_half_life, hke]
  cases dose with
  | none =>
      refine ⟨[("AUC", np_trapz C t), ("AUC_inf", vinf),
        ("MRT", np_trapz (C.zipWith (· * ·) t) t / np_trapz C t), ("tmax", vtm),
        ("Cmax", vcm), ("kelim", ke), ("t_half", lg 2 / ke)], ?_, by simp [doseTruthy], ?_⟩
      · simp only [calc_all_pk, hauc, hvinf, hmrt, htm, hcm, hke, hth, except_bind_ok]
        rfl
      · simp [doseTruthy]
  | some d =>
      by_cases hd : d = 0
      · subst hd
        refine ⟨[("AUC", np_trapz C t), ("AUC_inf", vinf),
          ("MRT", np_trapz (C.zipWith (· * ·) t) t / np_trapz C t), ("tmax", vtm),
          ("Cmax", vcm), ("kelim", ke), ("t_half", lg 2 / ke)], ?_, ?_, ?_⟩
        · simp only [calc_all_pk, hauc, hvinf, hmrt, htm, hcm, hke, hth, except_bind_ok]
          rw [if_neg (by simp)]
          rfl
        · simp [doseTruthy]
        · simp [doseTruthy]
      · obtain ⟨vcl, hcl⟩ := calc_clearance_ok lg degSlope t C d ninterp hlen hne
        obtain ⟨vvd, hvd⟩ := calc_vd_ok lg degSlope t C d ninterp hlen hne
        refine ⟨[("AUC", np_trapz C t), ("AUC_inf", vinf),
          ("MRT", np_trapz (C.zipWith (· * ·) t) t / np_trapz C t), ("tmax", vtm),
          ("Cmax", vcm), ("kelim", ke), ("t_half", lg 2 / ke),
          ("clearance", vcl), ("volume_of_distribution", vvd)], ?_, ?_, ?_⟩
        · simp only [calc_all_pk, hauc, hvinf, hmrt, htm, hcm, hke, hth, hcl, hvd,
            except_bind_ok]
          rw [if_pos hd]
          rfl
        · simp [doseTruthy, hd]
        · simp [doseTruthy, hd]

/-- C9 witness: a positive curve with a nonzero dose; all nine entries
are present. -/
theorem calc_all_pk_keys_witness :
    ∃ ps, calc_all_pk zeroLog zeroDeg [0, 1] [5, 5] (some 2) 3 = .ok ps ∧
      ps.map Prod.fst = ["AUC", "AUC_inf", "MRT", "tmax", "Cmax", "kelim", "t_half"]
        ++ (if doseTruthy (some 2) then ["clearance", "volume_of_distribution"] else []) ∧
      ("clearance" ∈ ps.map Prod.fst ↔ doseTruthy (some 2) = true) :=
  calc_all_pk_keys zeroLog zeroDeg [0, 1] [5, 5] (some 2) 3 rfl (by decide)

/-- C9 counterexample: a dose of 0 is supplied, yet clearance and
volume_of_distribution are omitted (Python truthiness treats 0 like
None), contradicting presence 'exactly when a dose is supplied'. -/
theorem calc_all_pk_zero_dose_cex :
    (calc_all_pk zeroLog zeroDeg [0, 1] [5, 5] (some 0) 3).map (fun ps => ps.map Prod.fst)
      = .ok ["AUC", "AUC_inf", "MRT", "tmax", "Cmax", "kelim", "t_half"] := by
  obtain ⟨ke, hke⟩ := calc_elim_rate_const_ok zeroLog zeroDeg [0, 1] [5, 5] 3 rfl (by decide)
  have hauc := calc_AUC_false_ok zeroLog zeroDeg [0, 1] [5, 5] 3 rfl (by decide)
  obtain ⟨vinf, hvinf⟩ := calc_AUC_true_ok zeroLog zeroDeg [0, 1] [5, 5] 3 rfl (by decide)
  have hmrt := calc_mrt_ok zeroLog zeroDeg [0, 1] [5, 5] 3 rfl (by decide)
  obtain ⟨vtm, htm⟩ := calc_tmax_ok [0, 1] [5, 5] rfl (by decide)
  obtain ⟨vcm, hcm⟩ := calc_cmax_ok [0, 1] [5, 5] (by decide)
  have hth : calc_elim_half_life zeroLog zeroDeg [0, 1] [5, 5] 3 = .ok (zeroLog 2 / ke) := by
    rw [calc_elim_half_life, hke]
  have hall : calc_all_pk zeroLog zeroDeg [0, 1] [5, 5] (some 0) 3
      = .ok [("AUC", np_trapz [5, 5] [0, 1]), ("AUC_inf", vinf),
          ("MRT", np_trapz (List.zipWith (fun a b => a * b) [5, 5] [0, 1]) [0, 1]
            / np_trapz [5, 5] [0, 1]),
          ("tmax", vtm), ("Cmax", vcm), ("kelim", ke), ("t_half", zeroLog 2 / ke)] := by
    simp only [calc_all_pk, hauc, hvinf, hmrt, htm, hcm, hke, hth, except_bind_ok]
    rfl
  rw [hall]
  rfl

example : calc_elim_rate_const zeroLog zeroDeg [0, 1] [1, 2] 3 = .ok 0 := by
  simp [calc_elim_rate_const, polyfitSlope, polyfitDenom, fitSlope, lastSlice, zeroLog, zeroDeg]

example : calc_AUC zeroLog zeroDeg [0, 1] [0, 10] false 3 = .ok 5 := by
  simp [calc_AUC, calc_elim_rate_const, polyfitSlope, polyfitDenom, fitSlope, lastSlice,
    np_trapz, trapzAux, zeroLog, zeroDeg]
  norm_num

example : calc_AUC zeroLog zeroDeg [0, 1] [0, 0] false 3 = .error .emptyVector := by
  simp [calc_AUC, calc_elim_rate_const, polyfitSlope, polyfitDenom, fitSlope, lastSlice,
    np_trapz, trapzAux, zeroLog, zeroDeg]
